import Mathlib

/-!
Shallow embedding of the physics/collision core of the 2D particle
simulation (`ParticleSystem2D.updateParticles` and its helper
`resolveCollision`).  Numbers are modelled as exact rationals.  The only
operation of the source that leaves the rationals is the Euclidean length
(`Vector2.length`, used for the speed limit, the rest snap, the pointer
distance, and collision distances); it is passed in as an oracle function
`f : ℚ → ℚ` mapping a squared norm to its length, and each theorem that
depends on an actual length pins `f` at the points the computation queries
via the predicate `IsSqrt`.
-/

namespace ParticleSim

/-- 2D vector (`THREE.Vector2`) with exact rational components. -/
structure Vec2 where
  x : ℚ
  y : ℚ
deriving DecidableEq

instance : Add Vec2 := ⟨fun a b => ⟨a.x + b.x, a.y + b.y⟩⟩
instance : Sub Vec2 := ⟨fun a b => ⟨a.x - b.x, a.y - b.y⟩⟩
instance : Neg Vec2 := ⟨fun a => ⟨-a.x, -a.y⟩⟩
instance : SMul ℚ Vec2 := ⟨fun c v => ⟨c * v.x, c * v.y⟩⟩

/-- Squared Euclidean norm of a vector (`v.lengthSq()`); the length used by
the source is its square root. -/
def normSq (v : Vec2) : ℚ := v.x * v.x + v.y * v.y

/-- Dot product (`Vector2.dot`). -/
def dot (a b : Vec2) : ℚ := a.x * b.x + a.y * b.y

/-- `s` is the exact Euclidean square root of `q` (so `s` is the length of a
vector of squared norm `q`). -/
def IsSqrt (q s : ℚ) : Prop := 0 ≤ s ∧ s * s = q

/-- `THREE.Vector2.normalize`: divide by the length, except that a zero
length divides by `1` (three.js uses `length() || 1`), leaving the vector
unchanged.  The length is obtained from the oracle `f`. -/
def normalizeWith (f : ℚ → ℚ) (v : Vec2) : Vec2 :=
  let l := f (normSq v)
  if l = 0 then v else (1 / l) • v

/-- Physics-relevant state of one particle (`ParticleData` minus the
rendering fields). -/
structure Particle where
  position : Vec2
  velocity : Vec2
deriving DecidableEq

/-- The physics fields of `SystemParams` (color and particleCount are not
read by the per-particle update). -/
structure SystemParams where
  attractionStrength : ℚ
  repulsionStrength : ℚ
  maxSpeed : ℚ
  particleSize : ℚ
  gravity : ℚ
  friction : ℚ
  stopThreshold : ℚ
deriving DecidableEq

/-- Pointer state read by the update (`isLeftMouseDown`, `isRightMouseDown`,
`attractionPoint`). -/
structure PointerState where
  isLeftMouseDown : Bool
  isRightMouseDown : Bool
  attractionPoint : Vec2
deriving DecidableEq

/-- Mouse-based attraction or repulsion (first block of the per-particle
update).  Opacity handling is a rendering side effect and is omitted. -/
def pointerStep (f : ℚ → ℚ) (pr : SystemParams) (ms : PointerState)
    (winW winH : ℚ) (p : Particle) : Particle :=
  if ms.isLeftMouseDown || ms.isRightMouseDown then
    let mousePos := ms.attractionPoint
    let distance := f (normSq (mousePos - p.position))
    let interactionRadius := min winW winH
    if distance < interactionRadius then
      let direction := normalizeWith f (mousePos - p.position)
      let force := if ms.isLeftMouseDown then pr.attractionStrength
        else -pr.repulsionStrength
      { p with velocity := p.velocity + (force * 100) • direction }
    else p
  else p

/-- `p.velocity.y -= this.params.gravity`. -/
def gravityStep (gravity : ℚ) (p : Particle) : Particle :=
  { p with velocity := ⟨p.velocity.x, p.velocity.y - gravity⟩ }

/-- Speed limit: if the speed exceeds `maxSpeed`, multiply the velocity by
`maxSpeed / speed`. -/
def speedLimitStep (f : ℚ → ℚ) (maxSpeed : ℚ) (p : Particle) : Particle :=
  let speed := f (normSq p.velocity)
  if speed > maxSpeed then { p with velocity := (maxSpeed / speed) • p.velocity }
  else p

/-- `p.position.add(p.velocity)`. -/
def moveStep (p : Particle) : Particle :=
  { p with position := p.position + p.velocity }

/-- `if (p.position.x < -halfWidth + radius)`: clamp to the left border and
negate-and-dampen the horizontal velocity by `-0.9`. -/
def clampLeft (halfWidth radius : ℚ) (p : Particle) : Particle :=
  if p.position.x < -halfWidth + radius then
    { position := (⟨-halfWidth + radius, p.position.y⟩ : Vec2),
      velocity := (⟨p.velocity.x * (-0.9), p.velocity.y⟩ : Vec2) }
  else p

/-- `if (p.position.x > halfWidth - radius)`: clamp to the right border. -/
def clampRight (halfWidth radius : ℚ) (p : Particle) : Particle :=
  if p.position.x > halfWidth - radius then
    { position := (⟨halfWidth - radius, p.position.y⟩ : Vec2),
      velocity := (⟨p.velocity.x * (-0.9), p.velocity.y⟩ : Vec2) }
  else p

/-- `if (p.position.y < -halfHeight + radius)`: clamp to the bottom border. -/
def clampBottom (halfHeight radius : ℚ) (p : Particle) : Particle :=
  if p.position.y < -halfHeight + radius then
    { position := (⟨p.position.x, -halfHeight + radius⟩ : Vec2),
      velocity := (⟨p.velocity.x, p.velocity.y * (-0.9)⟩ : Vec2) }
  else p

/-- `if (p.position.y > halfHeight - radius)`: clamp to the top border. -/
def clampTop (halfHeight radius : ℚ) (p : Particle) : Particle :=
  if p.position.y > halfHeight - radius then
    { position := (⟨p.position.x, halfHeight - radius⟩ : Vec2),
      velocity := (⟨p.velocity.x, p.velocity.y * (-0.9)⟩ : Vec2) }
  else p

/-- Border collision handling: the four sequential clamps of the source, in
source order (left, right, bottom, top). -/
def borderStep (halfWidth halfHeight radius : ℚ) (p : Particle) : Particle :=
  clampTop halfHeight radius
    (clampBottom halfHeight radius
      (clampRight halfWidth radius (clampLeft halfWidth radius p)))

/-- Friction multiplication and rest snap: multiply the velocity by
`friction`, then zero it when its magnitude falls below `stopThreshold`. -/
def frictionStep (f : ℚ → ℚ) (friction stopThreshold : ℚ) (p : Particle) :
    Particle :=
  let v := friction • p.velocity
  if f (normSq v) < stopThreshold then { p with velocity := (⟨0, 0⟩ : Vec2) }
  else { p with velocity := v }

/-- Stage 1 of `updateParticles` (force & integration) for one particle, in
the source's order: pointer interaction, gravity, speed limit, position
update, border collision, friction, rest snap. -/
def integrateParticle (f : ℚ → ℚ) (pr : SystemParams) (ms : PointerState)
    (winW winH : ℚ) (p : Particle) : Particle :=
  let halfWidth := winW / 2
  let halfHeight := winH / 2
  let radius := pr.particleSize
  frictionStep f pr.friction pr.stopThreshold
    (borderStep halfWidth halfHeight radius
      (moveStep (speedLimitStep f pr.maxSpeed
        (gravityStep pr.gravity (pointerStep f pr ms winW winH p)))))

/-- `resolveCollision` helper of `updateParticles`: positional correction by
half the overlap along the normal, then an impulse along the normal when the
particles approach. -/
def resolveCollision (f : ℚ → ℚ) (radius : ℚ) (p1 p2 : Particle) :
    Particle × Particle :=
  let diff := p1.position - p2.position
  let distance := f (normSq diff)
  let minDist := radius * 2
  if 0 < distance ∧ distance < minDist then
    let overlap := minDist - distance
    let normal := normalizeWith f diff
    let q1 := { p1 with position := p1.position + (overlap / 2) • normal }
    let q2 := { p2 with position := p2.position - (overlap / 2) • normal }
    let relativeVelocity := q1.velocity - q2.velocity
    let velAlongNormal := dot relativeVelocity normal
    if velAlongNormal < 0 then
      let impulse := -velAlongNormal
      ({ q1 with velocity := q1.velocity + impulse • normal },
       { q2 with velocity := q2.velocity - impulse • normal })
    else (q1, q2)
  else (p1, p2)

/-- Grid cell of a position: the coordinate origin is shifted from the
boundary's center to its corner, then divided by the cell size and
floored. -/
def cellOf (halfWidth halfHeight cellSize : ℚ) (v : Vec2) : ℤ × ℤ :=
  (⌊(v.x + halfWidth) / cellSize⌋, ⌊(v.y + halfHeight) / cellSize⌋)

/-!
Narrow-phase iteration structure (step 3 of `updateParticles`).  The grid
maps cell keys to the particles that fell into the cell, in insertion order
(JS `Map` iterates keys in first-insertion order and each bucket is filled
by a scan of the particle list).  The model below is generic in the particle
type `P` and the cell assignment `cell : P → ℤ × ℤ`; `updateParticles`
instantiates `cell` with `cellOf halfWidth halfHeight (radius * 2)` applied
to the post-integration position.
-/

/-- Pairs visited by the same-cell double loop
`for i; for j = i+1` over one bucket, in source order. -/
def sameCellPairs {P : Type} : List P → List (P × P)
  | [] => []
  | p :: rest => rest.map (fun q => (p, q)) ++ sameCellPairs rest

/-- The forward neighbor offsets of the source loop
(`dx ∈ {0,1}`, `dy ∈ {-1,0,1}`, skipping `dx = 0 ∧ dy ≤ 0`), in loop
order. -/
def fwdOffsets : List (ℤ × ℤ) := [(0, 1), (1, -1), (1, 0), (1, 1)]

/-- The bucket of cell `k`: the particles of the list whose cell is `k`, in
list order (the order in which `updateParticles` pushed them). -/
def bucket {P : Type} (cell : P → ℤ × ℤ) (ps : List P) (k : ℤ × ℤ) :
    List P :=
  ps.filter (fun p => cell p = k)

/-- All ordered pairs `(p1, p2)` with `p1` from the first list and `p2` from
the second, in the nested-loop order of the source. -/
def pairsOf {P : Type} (l1 l2 : List P) : List (P × P) :=
  l1.flatMap (fun p1 => l2.map (fun p2 => (p1, p2)))

/-- The cross-cell invocations issued from cell `k`: for every forward
offset `d`, every pair of a particle of the bucket of `k` with a particle of
the bucket of `k + d`. -/
def crossPairs {P : Type} (cell : P → ℤ × ℤ) (ps : List P) (k : ℤ × ℤ) :
    List (P × P) :=
  fwdOffsets.flatMap fun d =>
    pairsOf (bucket cell ps k) (bucket cell ps (k.1 + d.1, k.2 + d.2))

/-- The keys of the grid: each occupied cell exactly once (JS `Map` keys). -/
def gridKeys {P : Type} (cell : P → ℤ × ℤ) (ps : List P) : List (ℤ × ℤ) :=
  (ps.map cell).dedup

/-- The full list of ordered pairs on which `updateParticles` calls
`resolveCollision` in one frame: for every occupied cell, the same-cell
pairs followed by the forward cross-cell pairs. -/
def invocations {P : Type} (cell : P → ℤ × ℤ) (ps : List P) :
    List (P × P) :=
  (gridKeys cell ps).flatMap fun k =>
    sameCellPairs (bucket cell ps k) ++ crossPairs cell ps k

/-- Whether an ordered pair is the unordered pair `{i, j}`. -/
def isPairOf {P : Type} [DecidableEq P] (i j : P) (q : P × P) : Bool :=
  (q.1 = i && q.2 = j) || (q.1 = j && q.2 = i)

/-- How many times the unordered pair `{i, j}` is passed to
`resolveCollision` during one frame's narrow phase. -/
def pairCount {P : Type} [DecidableEq P] (cell : P → ℤ × ℤ) (ps : List P)
    (i j : P) : ℕ :=
  (invocations cell ps).countP (isPairOf i j)

/-- Number of occurrences of `a` in a list. -/
def cnt {P : Type} [DecidableEq P] (a : P) (l : List P) : ℕ :=
  l.countP (fun x => x = a)

/-!  Theorems.  -/

@[simp] theorem Vec2.add_x (a b : Vec2) : (a + b).x = a.x + b.x := rfl

@[simp] theorem Vec2.add_y (a b : Vec2) : (a + b).y = a.y + b.y := rfl

@[simp] theorem Vec2.sub_x (a b : Vec2) : (a - b).x = a.x - b.x := rfl

@[simp] theorem Vec2.sub_y (a b : Vec2) : (a - b).y = a.y - b.y := rfl

@[simp] theorem Vec2.neg_x (a : Vec2) : (-a).x = -a.x := rfl

@[simp] theorem Vec2.neg_y (a : Vec2) : (-a).y = -a.y := rfl

@[simp] theorem Vec2.smul_x (c : ℚ) (a : Vec2) : (c • a).x = c * a.x := rfl

@[simp] theorem Vec2.smul_y (c : ℚ) (a : Vec2) : (c • a).y = c * a.y := rfl

theorem Vec2.ext_xy {a b : Vec2} (hx : a.x = b.x) (hy : a.y = b.y) : a = b := by
  cases a; cases b; cases hx; cases hy; rfl

/-- If the squared norm is below `c * c` with `0 ≤ c`, both components are
below `c` in absolute value. -/
theorem abs_lt_of_normSq_lt {v : Vec2} {c : ℚ} (h : normSq v < c * c)
    (hc : 0 ≤ c) : |v.x| < c ∧ |v.y| < c := by
  unfold normSq at h
  constructor
  · nlinarith [abs_nonneg v.x, abs_mul_abs_self v.x, mul_self_nonneg v.y]
  · nlinarith [abs_nonneg v.y, abs_mul_abs_self v.y, mul_self_nonneg v.x]

/-- Two reals closer than `c` land in the same or in adjacent cells of the
width-`c` integer grid. -/
theorem floor_div_adjacent {a b c : ℚ} (hc : 0 < c) (h : |a - b| < c) :
    |⌊a / c⌋ - ⌊b / c⌋| ≤ 1 := by
  have hab := abs_lt.mp h
  have e1 : a / c = b / c + (a - b) / c := by ring
  have e2 : b / c = a / c + (b - a) / c := by ring
  have h1 : a / c ≤ b / c + 1 := by
    have hd : (a - b) / c < 1 := (div_lt_one hc).mpr (by linarith)
    rw [e1]; linarith
  have h2 : b / c ≤ a / c + 1 := by
    have hd : (b - a) / c < 1 := (div_lt_one hc).mpr (by linarith)
    rw [e2]; linarith
  have f1 : ⌊a / c⌋ ≤ ⌊b / c⌋ + 1 := by
    have := Int.floor_le_floor h1
    rwa [Int.floor_add_one] at this
  have f2 : ⌊b / c⌋ ≤ ⌊a / c⌋ + 1 := by
    have := Int.floor_le_floor h2
    rwa [Int.floor_add_one] at this
  rw [abs_le]
  exact ⟨by linarith, by linarith⟩

/-- Claim C1: for any two positions at Euclidean distance below
`2 × radius` (equivalently, squared distance below `(2 × radius)²`), the
grid cells computed by `cellOf` with cell size `2 × radius` are identical or
within Chebyshev distance 1 of each other, for every position and every
boundary half-extent. -/
theorem claim_C1_grid_adjacency (halfWidth halfHeight r : ℚ) (v1 v2 : Vec2)
    (hr : 0 < r) (hclose : normSq (v1 - v2) < (r * 2) * (r * 2)) :
    |(cellOf halfWidth halfHeight (r * 2) v1).1 -
        (cellOf halfWidth halfHeight (r * 2) v2).1| ≤ 1 ∧
      |(cellOf halfWidth halfHeight (r * 2) v1).2 -
        (cellOf halfWidth halfHeight (r * 2) v2).2| ≤ 1 := by
  have hc : 0 < r * 2 := by linarith
  have habs := abs_lt_of_normSq_lt hclose hc.le
  constructor
  · have hx : |(v1.x + halfWidth) - (v2.x + halfWidth)| < r * 2 := by
      have e : (v1.x + halfWidth) - (v2.x + halfWidth) = (v1 - v2).x := by
        rw [Vec2.sub_x]; ring
      rw [e]; exact habs.1
    exact floor_div_adjacent hc hx
  · have hy : |(v1.y + halfHeight) - (v2.y + halfHeight)| < r * 2 := by
      have e : (v1.y + halfHeight) - (v2.y + halfHeight) = (v1 - v2).y := by
        rw [Vec2.sub_y]; ring
      rw [e]; exact habs.2
    exact floor_div_adjacent hc hy

/-- Witness for claim C1 at a concrete input: radius 8, positions `(0,0)`
and `(3,4)` (distance 5 < 16), half-extents 100. -/
theorem claim_C1_grid_adjacency_witness :
    (0 : ℚ) < 8 ∧
      normSq ((⟨0, 0⟩ : Vec2) - ⟨3, 4⟩) < ((8 : ℚ) * 2) * (8 * 2) ∧
      (|(cellOf 100 100 (8 * 2) ⟨0, 0⟩).1 -
          (cellOf 100 100 (8 * 2) ⟨3, 4⟩).1| ≤ 1 ∧
        |(cellOf 100 100 (8 * 2) ⟨0, 0⟩).2 -
          (cellOf 100 100 (8 * 2) ⟨3, 4⟩).2| ≤ 1) :=
  ⟨by norm_num, by norm_num [normSq],
    claim_C1_grid_adjacency 100 100 8 ⟨0, 0⟩ ⟨3, 4⟩ (by norm_num)
      (by norm_num [normSq])⟩

/-- The bottom/top clamps do not move the horizontal coordinate. -/
theorem clampBottom_position_x (hh r : ℚ) (p : Particle) :
    (clampBottom hh r p).position.x = p.position.x := by
  unfold clampBottom; split <;> rfl

theorem clampTop_position_x (hh r : ℚ) (p : Particle) :
    (clampTop hh r p).position.x = p.position.x := by
  unfold clampTop; split <;> rfl

/-- The left/right clamps do not move the vertical coordinate. -/
theorem clampLeft_position_y (hw r : ℚ) (p : Particle) :
    (clampLeft hw r p).position.y = p.position.y := by
  unfold clampLeft; split <;> rfl

theorem clampRight_position_y (hw r : ℚ) (p : Particle) :
    (clampRight hw r p).position.y = p.position.y := by
  unfold clampRight; split <;> rfl

/-- After the left then the right clamp, the horizontal coordinate is inside
the inset boundary, provided the radius does not exceed the half-width. -/
theorem clamp_x_bound (hw r : ℚ) (hrw : r ≤ hw) (p : Particle) :
    |(clampRight hw r (clampLeft hw r p)).position.x| ≤ hw - r := by
  unfold clampLeft clampRight
  rw [abs_le]
  split_ifs with h1 h2 h3 <;> constructor <;> simp_all <;> linarith

/-- After the bottom then the top clamp, the vertical coordinate is inside
the inset boundary, provided the radius does not exceed the half-height. -/
theorem clamp_y_bound (hh r : ℚ) (hrh : r ≤ hh) (p : Particle) :
    |(clampTop hh r (clampBottom hh r p)).position.y| ≤ hh - r := by
  unfold clampBottom clampTop
  rw [abs_le]
  split_ifs with h1 h2 h3 <;> constructor <;> simp_all <;> linarith

/-- Border handling clamps the position into the inset boundary whenever the
radius fits inside both half-extents. -/
theorem borderStep_abs (hw hh r : ℚ) (hrw : r ≤ hw) (hrh : r ≤ hh)
    (p : Particle) :
    |(borderStep hw hh r p).position.x| ≤ hw - r ∧
      |(borderStep hw hh r p).position.y| ≤ hh - r := by
  unfold borderStep
  refine ⟨?_, ?_⟩
  · rw [clampTop_position_x, clampBottom_position_x]
    exact clamp_x_bound hw r hrw p
  · exact clamp_y_bound hh r hrh _

/-- The friction/rest-snap step does not move the position. -/
theorem frictionStep_position (f : ℚ → ℚ) (fr st : ℚ) (p : Particle) :
    (frictionStep f fr st p).position = p.position := by
  simp only [frictionStep]
  split <;> rfl

/-- Claim C2 (amended): after the Force & Integration Stage the position
satisfies `|x| ≤ halfWidth - radius` and `|y| ≤ halfHeight - radius`, for
every pointer state, every starting position and velocity, and every length
oracle, PROVIDED the radius does not exceed either half-extent.  (The
unrestricted claim is refuted by `claim_C2_counterexample`.) -/
theorem claim_C2_containment (f : ℚ → ℚ) (pr : SystemParams)
    (ms : PointerState) (winW winH : ℚ) (p : Particle)
    (hrw : pr.particleSize ≤ winW / 2) (hrh : pr.particleSize ≤ winH / 2) :
    |(integrateParticle f pr ms winW winH p).position.x| ≤
        winW / 2 - pr.particleSize ∧
      |(integrateParticle f pr ms winW winH p).position.y| ≤
        winH / 2 - pr.particleSize := by
  unfold integrateParticle
  rw [frictionStep_position]
  exact borderStep_abs _ _ _ hrw hrh _

/-- Witness for the amended claim C2 at a concrete input (window 200×200,
radius 8, particle resting at the origin, pointer inactive). -/
theorem claim_C2_containment_witness :
    ((⟨1/10, 3/20, 8, 8, 1/5, 49/50, 1/20⟩ : SystemParams).particleSize ≤
        (200 : ℚ) / 2 ∧
      (⟨1/10, 3/20, 8, 8, 1/5, 49/50, 1/20⟩ : SystemParams).particleSize ≤
        (200 : ℚ) / 2) ∧
      (|(integrateParticle (fun _ => 0) ⟨1/10, 3/20, 8, 8, 1/5, 49/50, 1/20⟩
            ⟨false, false, ⟨0, 0⟩⟩ 200 200 ⟨⟨0, 0⟩, ⟨0, 0⟩⟩).position.x| ≤
          200 / 2 - (⟨1/10, 3/20, 8, 8, 1/5, 49/50, 1/20⟩ :
            SystemParams).particleSize ∧
        |(integrateParticle (fun _ => 0) ⟨1/10, 3/20, 8, 8, 1/5, 49/50, 1/20⟩
            ⟨false, false, ⟨0, 0⟩⟩ 200 200 ⟨⟨0, 0⟩, ⟨0, 0⟩⟩).position.y| ≤
          200 / 2 - (⟨1/10, 3/20, 8, 8, 1/5, 49/50, 1/20⟩ :
            SystemParams).particleSize) :=
  ⟨⟨by norm_num, by norm_num⟩,
    claim_C2_containment (fun _ => 0) _ _ 200 200 ⟨⟨0, 0⟩, ⟨0, 0⟩⟩
      (by norm_num) (by norm_num)⟩

/-- Counterexample to claim C2 as stated ("for all parameter values"): with
a window of width and height 2 (half-extents 1) and radius 2, a particle
resting at the origin ends the stage at position `(-1, -1)`, and
`|x| = 1 > halfWidth - radius = -1`.  The oracle `fun _ => 0` is the true
length at every queried point (only the zero vector is measured). -/
theorem claim_C2_counterexample :
    IsSqrt (normSq (⟨0, 0⟩ : Vec2)) ((fun _ : ℚ => (0 : ℚ)) 0) ∧
      ¬ (|(integrateParticle (fun _ => 0) ⟨1/10, 3/20, 0, 2, 0, 49/50, 1/20⟩
            ⟨false, false, ⟨0, 0⟩⟩ 2 2 ⟨⟨0, 0⟩, ⟨0, 0⟩⟩).position.x| ≤
          2 / 2 - 2) := by
  constructor
  · exact ⟨le_refl 0, by norm_num [normSq]⟩
  · have hx : (integrateParticle (fun _ => 0)
        ⟨1/10, 3/20, 0, 2, 0, 49/50, 1/20⟩ ⟨false, false, ⟨0, 0⟩⟩ 2 2
        ⟨⟨0, 0⟩, ⟨0, 0⟩⟩).position.x = -1 := by
      norm_num [integrateParticle, frictionStep, borderStep, clampTop,
        clampBottom, clampRight, clampLeft, moveStep, speedLimitStep,
        gravityStep, pointerStep, normSq]
    rw [hx]
    norm_num

/-- Scaling a vector scales the squared norm by the square of the factor. -/
theorem normSq_smul (c : ℚ) (v : Vec2) : normSq (c • v) = c * c * normSq v := by
  unfold normSq
  simp only [Vec2.smul_x, Vec2.smul_y]
  ring

/-- The dot product is linear in its first argument's scaling. -/
theorem dot_smul_left (c : ℚ) (a b : Vec2) : dot (c • a) b = c * dot a b := by
  unfold dot
  simp only [Vec2.smul_x, Vec2.smul_y]
  ring

/-- The dot product of a vector with itself is its squared norm. -/
theorem dot_self (v : Vec2) : dot v v = normSq v := rfl

/-- Claim C5: immediately after the speed-clamp step, the velocity magnitude
is at most `maxSpeed` (stated on squared norms); when the pre-clamp
magnitude `s` exceeds `maxSpeed` the velocity is rescaled to exactly
magnitude `maxSpeed`, otherwise the particle is unchanged. -/
theorem claim_C5_speed_clamp (f : ℚ → ℚ) (maxSpeed : ℚ) (p : Particle)
    (s : ℚ) (hs : IsSqrt (normSq p.velocity) s)
    (hf : f (normSq p.velocity) = s) (hm : 0 ≤ maxSpeed) :
    normSq (speedLimitStep f maxSpeed p).velocity ≤ maxSpeed * maxSpeed ∧
      (maxSpeed < s →
        normSq (speedLimitStep f maxSpeed p).velocity = maxSpeed * maxSpeed) ∧
      (¬ maxSpeed < s → speedLimitStep f maxSpeed p = p) := by
  obtain ⟨hs0, hs2⟩ := hs
  simp only [speedLimitStep, hf]
  by_cases h : s > maxSpeed
  · have h0 : 0 < s := lt_of_le_of_lt hm h
    rw [if_pos h]
    have he : normSq ((maxSpeed / s) • p.velocity) = maxSpeed * maxSpeed := by
      rw [normSq_smul, ← hs2]
      field_simp
    exact ⟨le_of_eq he, fun _ => he, fun hc => absurd h hc⟩
  · rw [if_neg h]
    push_neg at h
    refine ⟨?_, fun hc => absurd hc (by exact not_lt.mpr h), fun _ => rfl⟩
    rw [← hs2]
    nlinarith

/-- Witness for claim C5: velocity `(3,4)` of magnitude 5 against
`maxSpeed = 3`. -/
theorem claim_C5_speed_clamp_witness :
    IsSqrt (normSq (⟨⟨0, 0⟩, ⟨3, 4⟩⟩ : Particle).velocity) 5 ∧
      (fun q : ℚ => if q = 25 then (5 : ℚ) else 0)
          (normSq (⟨⟨0, 0⟩, ⟨3, 4⟩⟩ : Particle).velocity) = 5 ∧
      (0 : ℚ) ≤ 3 ∧
      (normSq (speedLimitStep (fun q => if q = 25 then 5 else 0) 3
          ⟨⟨0, 0⟩, ⟨3, 4⟩⟩).velocity ≤ 3 * 3 ∧
        ((3 : ℚ) < 5 →
          normSq (speedLimitStep (fun q => if q = 25 then 5 else 0) 3
            ⟨⟨0, 0⟩, ⟨3, 4⟩⟩).velocity = 3 * 3) ∧
        (¬ (3 : ℚ) < 5 →
          speedLimitStep (fun q => if q = 25 then 5 else 0) 3 ⟨⟨0, 0⟩, ⟨3, 4⟩⟩ =
            ⟨⟨0, 0⟩, ⟨3, 4⟩⟩)) :=
  ⟨⟨by norm_num, by norm_num [normSq]⟩, by norm_num [normSq], by norm_num,
    claim_C5_speed_clamp (fun q => if q = 25 then 5 else 0) 3 ⟨⟨0, 0⟩, ⟨3, 4⟩⟩ 5
      ⟨by norm_num, by norm_num [normSq]⟩ (by norm_num [normSq]) (by norm_num)⟩

/-- Claim C6: if the post-friction velocity magnitude is strictly below
`stopThreshold` (stated on squared norms), the velocity is set to exactly
`(0,0)`; otherwise the post-friction velocity is kept. -/
theorem claim_C6_rest_snap (f : ℚ → ℚ) (friction stopThreshold : ℚ)
    (p : Particle) (t : ℚ)
    (ht : IsSqrt (normSq (friction • p.velocity)) t)
    (hf : f (normSq (friction • p.velocity)) = t) (hst : 0 ≤ stopThreshold) :
    (normSq (friction • p.velocity) < stopThreshold * stopThreshold →
        (frictionStep f friction stopThreshold p).velocity = ⟨0, 0⟩) ∧
      (stopThreshold * stopThreshold ≤ normSq (friction • p.velocity) →
        (frictionStep f friction stopThreshold p).velocity =
          friction • p.velocity) := by
  obtain ⟨ht0, ht2⟩ := ht
  simp only [frictionStep, hf]
  constructor
  · intro h
    rw [if_pos (show t < stopThreshold by nlinarith)]
  · intro h
    rw [if_neg (show ¬ t < stopThreshold by push_neg; nlinarith)]

/-- Witness for claim C6: friction `1/2` on velocity `(0.06, 0.08)` leaves
magnitude `0.05 < stopThreshold = 0.1`, so the velocity snaps to zero. -/
theorem claim_C6_rest_snap_witness :
    IsSqrt (normSq ((1/2 : ℚ) • (⟨⟨0, 0⟩, ⟨3/50, 2/25⟩⟩ : Particle).velocity))
        (1/20) ∧
      (fun q : ℚ => if q = 1/400 then (1/20 : ℚ) else 0)
          (normSq ((1/2 : ℚ) •
            (⟨⟨0, 0⟩, ⟨3/50, 2/25⟩⟩ : Particle).velocity)) = 1/20 ∧
      (0 : ℚ) ≤ 1/10 ∧
      ((normSq ((1/2 : ℚ) • (⟨⟨0, 0⟩, ⟨3/50, 2/25⟩⟩ : Particle).velocity) <
          1/10 * (1/10) →
        (frictionStep (fun q => if q = 1/400 then 1/20 else 0) (1/2) (1/10)
          ⟨⟨0, 0⟩, ⟨3/50, 2/25⟩⟩).velocity = ⟨0, 0⟩) ∧
       (1/10 * (1/10) ≤
          normSq ((1/2 : ℚ) • (⟨⟨0, 0⟩, ⟨3/50, 2/25⟩⟩ : Particle).velocity) →
        (frictionStep (fun q => if q = 1/400 then 1/20 else 0) (1/2) (1/10)
          ⟨⟨0, 0⟩, ⟨3/50, 2/25⟩⟩).velocity =
            (1/2 : ℚ) • (⟨⟨0, 0⟩, ⟨3/50, 2/25⟩⟩ : Particle).velocity)) :=
  ⟨⟨by norm_num, by norm_num [normSq]⟩, by norm_num [normSq], by norm_num,
    claim_C6_rest_snap (fun q => if q = 1/400 then 1/20 else 0) (1/2) (1/10)
      ⟨⟨0, 0⟩, ⟨3/50, 2/25⟩⟩ (1/20)
      ⟨by norm_num, by norm_num [normSq]⟩ (by norm_num [normSq]) (by norm_num)⟩

/-- Claim C3: for two particles with `0 < distance < 2 × radius`, one call
of `resolveCollision` leaves them at distance exactly `2 × radius` (stated
on squared norms), each displaced by `(2 × radius - distance)/2` along the
± unit normal `diff / distance`. -/
theorem claim_C3_separation (f : ℚ → ℚ) (r : ℚ) (p1 p2 : Particle) (d : ℚ)
    (hd : IsSqrt (normSq (p1.position - p2.position)) d)
    (hf : f (normSq (p1.position - p2.position)) = d)
    (h0 : 0 < d) (h1 : d < r * 2) :
    normSq ((resolveCollision f r p1 p2).1.position -
        (resolveCollision f r p1 p2).2.position) = (r * 2) * (r * 2) ∧
      (resolveCollision f r p1 p2).1.position =
        p1.position +
          ((r * 2 - d) / 2) • ((1 / d) • (p1.position - p2.position)) ∧
      (resolveCollision f r p1 p2).2.position =
        p2.position -
          ((r * 2 - d) / 2) • ((1 / d) • (p1.position - p2.position)) := by
  obtain ⟨hd0, hd2⟩ := hd
  have hdne : d ≠ 0 := ne_of_gt h0
  have e : (p1.position +
        ((r * 2 - d) / 2) • ((1 / d) • (p1.position - p2.position))) -
      (p2.position -
        ((r * 2 - d) / 2) • ((1 / d) • (p1.position - p2.position))) =
      ((r * 2) / d) • (p1.position - p2.position) := by
    apply Vec2.ext_xy <;>
      simp only [Vec2.add_x, Vec2.add_y, Vec2.sub_x, Vec2.sub_y,
        Vec2.smul_x, Vec2.smul_y] <;>
      field_simp <;> ring
  have hn : normSq (((r * 2) / d) • (p1.position - p2.position)) =
      (r * 2) * (r * 2) := by
    rw [normSq_smul, ← hd2]
    field_simp
  simp only [resolveCollision, normalizeWith, hf,
    eq_true (⟨h0, h1⟩ : 0 < d ∧ d < r * 2), eq_false hdne, if_true, if_false]
  split_ifs with hv <;> dsimp only <;> exact ⟨by rw [e, hn], rfl, rfl⟩

/-- Witness for claim C3, at the spec's Scenario B numbers: radius 8, two
resting particles at distance 8; the final squared distance is `16²` and
each is displaced `(16 - 8)/2 = 4` along the normal. -/
theorem claim_C3_separation_witness :
    IsSqrt (normSq ((⟨⟨8, 0⟩, ⟨0, 0⟩⟩ : Particle).position -
        (⟨⟨0, 0⟩, ⟨0, 0⟩⟩ : Particle).position)) 8 ∧
      (fun q : ℚ => if q = 64 then (8 : ℚ) else 0)
        (normSq ((⟨⟨8, 0⟩, ⟨0, 0⟩⟩ : Particle).position -
          (⟨⟨0, 0⟩, ⟨0, 0⟩⟩ : Particle).position)) = 8 ∧
      (0 : ℚ) < 8 ∧ (8 : ℚ) < 8 * 2 ∧
      (normSq ((resolveCollision (fun q => if q = 64 then 8 else 0) 8
            ⟨⟨8, 0⟩, ⟨0, 0⟩⟩ ⟨⟨0, 0⟩, ⟨0, 0⟩⟩).1.position -
          (resolveCollision (fun q => if q = 64 then 8 else 0) 8
            ⟨⟨8, 0⟩, ⟨0, 0⟩⟩ ⟨⟨0, 0⟩, ⟨0, 0⟩⟩).2.position) =
          ((8 : ℚ) * 2) * (8 * 2) ∧
        (resolveCollision (fun q => if q = 64 then 8 else 0) 8
            ⟨⟨8, 0⟩, ⟨0, 0⟩⟩ ⟨⟨0, 0⟩, ⟨0, 0⟩⟩).1.position =
          (⟨⟨8, 0⟩, ⟨0, 0⟩⟩ : Particle).position +
            (((8 : ℚ) * 2 - 8) / 2) •
              ((1 / 8 : ℚ) • ((⟨⟨8, 0⟩, ⟨0, 0⟩⟩ : Particle).position -
                (⟨⟨0, 0⟩, ⟨0, 0⟩⟩ : Particle).position)) ∧
        (resolveCollision (fun q => if q = 64 then 8 else 0) 8
            ⟨⟨8, 0⟩, ⟨0, 0⟩⟩ ⟨⟨0, 0⟩, ⟨0, 0⟩⟩).2.position =
          (⟨⟨0, 0⟩, ⟨0, 0⟩⟩ : Particle).position -
            (((8 : ℚ) * 2 - 8) / 2) •
              ((1 / 8 : ℚ) • ((⟨⟨8, 0⟩, ⟨0, 0⟩⟩ : Particle).position -
                (⟨⟨0, 0⟩, ⟨0, 0⟩⟩ : Particle).position))) :=
  ⟨⟨by norm_num, by norm_num [normSq]⟩, by norm_num [normSq], by norm_num,
    by norm_num,
    claim_C3_separation (fun q => if q = 64 then 8 else 0) 8
      ⟨⟨8, 0⟩, ⟨0, 0⟩⟩ ⟨⟨0, 0⟩, ⟨0, 0⟩⟩ 8
      ⟨by norm_num, by norm_num [normSq]⟩ (by norm_num [normSq])
      (by norm_num) (by norm_num)⟩

/-- Claim C9: `resolveCollision` is a no-op (both positions and both
velocities unchanged) when the distance is `0` or at least `2 × radius`. -/
theorem claim_C9_degenerate_noop (f : ℚ → ℚ) (r : ℚ) (p1 p2 : Particle)
    (d : ℚ) (hd : IsSqrt (normSq (p1.position - p2.position)) d)
    (hf : f (normSq (p1.position - p2.position)) = d)
    (hcase : d = 0 ∨ r * 2 ≤ d) :
    resolveCollision f r p1 p2 = (p1, p2) := by
  have hnot : ¬ (0 < d ∧ d < r * 2) := by
    rcases hcase with h | h
    · rintro ⟨a, -⟩; rw [h] at a; exact lt_irrefl 0 a
    · rintro ⟨-, b⟩; linarith
  simp only [resolveCollision, hf, eq_false hnot, if_false]

/-- Witness for claim C9: two exactly coincident particles (distance 0) are
left unchanged. -/
theorem claim_C9_degenerate_noop_witness :
    IsSqrt (normSq ((⟨⟨1, 2⟩, ⟨3, 4⟩⟩ : Particle).position -
        (⟨⟨1, 2⟩, ⟨3, 4⟩⟩ : Particle).position)) 0 ∧
      (fun _ : ℚ => (0 : ℚ))
        (normSq ((⟨⟨1, 2⟩, ⟨3, 4⟩⟩ : Particle).position -
          (⟨⟨1, 2⟩, ⟨3, 4⟩⟩ : Particle).position)) = 0 ∧
      ((0 : ℚ) = 0 ∨ (8 : ℚ) * 2 ≤ 0) ∧
      resolveCollision (fun _ => 0) 8 ⟨⟨1, 2⟩, ⟨3, 4⟩⟩ ⟨⟨1, 2⟩, ⟨3, 4⟩⟩ =
        (⟨⟨1, 2⟩, ⟨3, 4⟩⟩, ⟨⟨1, 2⟩, ⟨3, 4⟩⟩) :=
  ⟨⟨by norm_num, by norm_num [normSq]⟩, by norm_num, Or.inl rfl,
    claim_C9_degenerate_noop (fun _ => 0) 8 ⟨⟨1, 2⟩, ⟨3, 4⟩⟩
      ⟨⟨1, 2⟩, ⟨3, 4⟩⟩ 0 ⟨le_refl 0, by norm_num [normSq]⟩ (by norm_num)
      (Or.inl rfl)⟩

/-- Claim C10: `resolveCollision` preserves the vector sum of the two
velocities and the vector sum of the two positions, for every input state,
radius, and length oracle (the positional correction and the impulse are
equal and opposite). -/
theorem claim_C10_conservation (f : ℚ → ℚ) (r : ℚ) (p1 p2 : Particle) :
    (resolveCollision f r p1 p2).1.velocity +
        (resolveCollision f r p1 p2).2.velocity =
          p1.velocity + p2.velocity ∧
      (resolveCollision f r p1 p2).1.position +
        (resolveCollision f r p1 p2).2.position =
          p1.position + p2.position := by
  simp only [resolveCollision, normalizeWith]
  split_ifs <;> constructor <;> apply Vec2.ext_xy <;> dsimp only <;>
    simp only [Vec2.add_x, Vec2.add_y, Vec2.sub_x, Vec2.sub_y,
      Vec2.smul_x, Vec2.smul_y] <;> ring

/-- Claim C7: for an overlapping pair colliding head-on along the unit
normal `n = diff/d` with velocities `k • n` (with `k < 0`, approaching) and
`-k • n`, `resolveCollision` exactly exchanges the velocities. -/
theorem claim_C7_elastic_exchange (f : ℚ → ℚ) (r : ℚ) (p1 p2 : Particle)
    (d k : ℚ) (hd : IsSqrt (normSq (p1.position - p2.position)) d)
    (hf : f (normSq (p1.position - p2.position)) = d)
    (h0 : 0 < d) (h1 : d < r * 2) (hk : k < 0)
    (hv1 : p1.velocity = k • ((1 / d) • (p1.position - p2.position)))
    (hv2 : p2.velocity = (-k) • ((1 / d) • (p1.position - p2.position))) :
    (resolveCollision f r p1 p2).1.velocity =
        (-k) • ((1 / d) • (p1.position - p2.position)) ∧
      (resolveCollision f r p1 p2).2.velocity =
        k • ((1 / d) • (p1.position - p2.position)) := by
  obtain ⟨hd0, hd2⟩ := hd
  have hdne : d ≠ 0 := ne_of_gt h0
  have hw : normSq ((1 / d) • (p1.position - p2.position)) = 1 := by
    rw [normSq_smul, ← hd2]
    field_simp
  have hrel : p1.velocity - p2.velocity =
      (2 * k) • ((1 / d) • (p1.position - p2.position)) := by
    rw [hv1, hv2]
    apply Vec2.ext_xy <;>
      simp only [Vec2.sub_x, Vec2.sub_y, Vec2.smul_x, Vec2.smul_y,
        Vec2.neg_x, Vec2.neg_y] <;> ring
  have hdot : dot (p1.velocity - p2.velocity)
      ((1 / d) • (p1.position - p2.position)) = 2 * k := by
    rw [hrel, dot_smul_left, dot_self, hw, mul_one]
  simp only [resolveCollision, normalizeWith, hf,
    eq_true (⟨h0, h1⟩ : 0 < d ∧ d < r * 2), eq_false hdne, if_true, if_false]
  rw [if_pos (show dot (p1.velocity - p2.velocity)
      ((1 / d) • (p1.position - p2.position)) < 0 by rw [hdot]; linarith)]
  rw [hdot]
  constructor <;> apply Vec2.ext_xy <;>
    simp only [hv1, hv2, Vec2.add_x, Vec2.add_y, Vec2.sub_x, Vec2.sub_y,
      Vec2.smul_x, Vec2.smul_y, Vec2.neg_x, Vec2.neg_y] <;> ring

/-- Witness for claim C7: radius 8, particles at `(8,0)` and `(0,0)`
(normal `(1,0)`) with velocities `(-3,0)` and `(3,0)`; after resolution the
velocities are `(3,0)` and `(-3,0)`. -/
theorem claim_C7_elastic_exchange_witness :
    IsSqrt (normSq ((⟨⟨8, 0⟩, ⟨-3, 0⟩⟩ : Particle).position -
        (⟨⟨0, 0⟩, ⟨3, 0⟩⟩ : Particle).position)) 8 ∧
      (fun q : ℚ => if q = 64 then (8 : ℚ) else 0)
        (normSq ((⟨⟨8, 0⟩, ⟨-3, 0⟩⟩ : Particle).position -
          (⟨⟨0, 0⟩, ⟨3, 0⟩⟩ : Particle).position)) = 8 ∧
      (0 : ℚ) < 8 ∧ (8 : ℚ) < 8 * 2 ∧ (-3 : ℚ) < 0 ∧
      (⟨⟨8, 0⟩, ⟨-3, 0⟩⟩ : Particle).velocity =
        (-3 : ℚ) • ((1 / 8 : ℚ) •
          ((⟨⟨8, 0⟩, ⟨-3, 0⟩⟩ : Particle).position -
            (⟨⟨0, 0⟩, ⟨3, 0⟩⟩ : Particle).position)) ∧
      (⟨⟨0, 0⟩, ⟨3, 0⟩⟩ : Particle).velocity =
        (-(-3) : ℚ) • ((1 / 8 : ℚ) •
          ((⟨⟨8, 0⟩, ⟨-3, 0⟩⟩ : Particle).position -
            (⟨⟨0, 0⟩, ⟨3, 0⟩⟩ : Particle).position)) ∧
      ((resolveCollision (fun q => if q = 64 then 8 else 0) 8
          ⟨⟨8, 0⟩, ⟨-3, 0⟩⟩ ⟨⟨0, 0⟩, ⟨3, 0⟩⟩).1.velocity =
        (-(-3) : ℚ) • ((1 / 8 : ℚ) •
          ((⟨⟨8, 0⟩, ⟨-3, 0⟩⟩ : Particle).position -
            (⟨⟨0, 0⟩, ⟨3, 0⟩⟩ : Particle).position)) ∧
      (resolveCollision (fun q => if q = 64 then 8 else 0) 8
          ⟨⟨8, 0⟩, ⟨-3, 0⟩⟩ ⟨⟨0, 0⟩, ⟨3, 0⟩⟩).2.velocity =
        (-3 : ℚ) • ((1 / 8 : ℚ) •
          ((⟨⟨8, 0⟩, ⟨-3, 0⟩⟩ : Particle).position -
            (⟨⟨0, 0⟩, ⟨3, 0⟩⟩ : Particle).position))) :=
  ⟨⟨by norm_num, by norm_num [normSq]⟩, by norm_num [normSq], by norm_num,
    by norm_num, by norm_num,
    by apply Vec2.ext_xy <;> norm_num,
    by apply Vec2.ext_xy <;> norm_num,
    claim_C7_elastic_exchange (fun q => if q = 64 then 8 else 0) 8
      ⟨⟨8, 0⟩, ⟨-3, 0⟩⟩ ⟨⟨0, 0⟩, ⟨3, 0⟩⟩ 8 (-3)
      ⟨by norm_num, by norm_num [normSq]⟩ (by norm_num [normSq])
      (by norm_num) (by norm_num) (by norm_num)
      (by apply Vec2.ext_xy <;> norm_num)
      (by apply Vec2.ext_xy <;> norm_num)⟩

/-- Claim C8 (amended): Scenario C — a particle at
`x = halfWidth - radius + 1` with `velocity.x = +2`, pointer inactive, ends
the Force & Integration Stage at `position.x = halfWidth - radius` with
`velocity.x = -1.8`, PROVIDED `friction = 1`, the pre-clamp speed does not
exceed `maxSpeed`, the y-border is not hit, and
`stopThreshold ≤ 1.8` (so the rest snap cannot fire).  With the source's
default `friction = 0.98` the stated `-1.8` is refuted by
`claim_C8_counterexample`. -/
theorem claim_C8_scenario_c (f : ℚ → ℚ) (winW winH : ℚ)
    (astr rstr maxSpeed r g stop y vy s t : ℚ) (ms : PointerState)
    (hms1 : ms.isLeftMouseDown = false) (hms2 : ms.isRightMouseDown = false)
    (hr : r ≤ winW / 2)
    (hs : IsSqrt (normSq (⟨2, vy - g⟩ : Vec2)) s)
    (hfs : f (normSq (⟨2, vy - g⟩ : Vec2)) = s)
    (hsm : s ≤ maxSpeed)
    (hy1 : -(winH / 2) + r ≤ y + (vy - g))
    (hy2 : y + (vy - g) ≤ winH / 2 - r)
    (ht : IsSqrt (normSq (⟨-(9/5), vy - g⟩ : Vec2)) t)
    (hft : f (normSq (⟨-(9/5), vy - g⟩ : Vec2)) = t)
    (hstop : stop ≤ 9/5) :
    (integrateParticle f ⟨astr, rstr, maxSpeed, r, g, 1, stop⟩ ms winW winH
        ⟨⟨winW / 2 - r + 1, y⟩, ⟨2, vy⟩⟩).position.x = winW / 2 - r ∧
      (integrateParticle f ⟨astr, rstr, maxSpeed, r, g, 1, stop⟩ ms winW winH
        ⟨⟨winW / 2 - r + 1, y⟩, ⟨2, vy⟩⟩).velocity.x = -(9/5) := by
  obtain ⟨hs0, hs2⟩ := hs
  obtain ⟨ht0, ht2⟩ := ht
  have e1 : pointerStep f ⟨astr, rstr, maxSpeed, r, g, 1, stop⟩ ms winW winH
      ⟨⟨winW / 2 - r + 1, y⟩, ⟨2, vy⟩⟩ = ⟨⟨winW / 2 - r + 1, y⟩, ⟨2, vy⟩⟩ := by
    simp [pointerStep, hms1, hms2]
  have e2 : gravityStep g (⟨⟨winW / 2 - r + 1, y⟩, ⟨2, vy⟩⟩ : Particle) =
      ⟨⟨winW / 2 - r + 1, y⟩, ⟨2, vy - g⟩⟩ := rfl
  have e3 : speedLimitStep f maxSpeed
      (⟨⟨winW / 2 - r + 1, y⟩, ⟨2, vy - g⟩⟩ : Particle) =
      ⟨⟨winW / 2 - r + 1, y⟩, ⟨2, vy - g⟩⟩ := by
    simp only [speedLimitStep, hfs]
    rw [if_neg (not_lt.mpr hsm)]
  have e4 : moveStep (⟨⟨winW / 2 - r + 1, y⟩, ⟨2, vy - g⟩⟩ : Particle) =
      ⟨⟨winW / 2 - r + 1 + 2, y + (vy - g)⟩, ⟨2, vy - g⟩⟩ := rfl
  have e5 : clampLeft (winW / 2) r
      (⟨⟨winW / 2 - r + 1 + 2, y + (vy - g)⟩, ⟨2, vy - g⟩⟩ : Particle) =
      ⟨⟨winW / 2 - r + 1 + 2, y + (vy - g)⟩, ⟨2, vy - g⟩⟩ := by
    simp only [clampLeft]
    rw [if_neg (by push_neg; linarith)]
  have e6 : clampRight (winW / 2) r
      (⟨⟨winW / 2 - r + 1 + 2, y + (vy - g)⟩, ⟨2, vy - g⟩⟩ : Particle) =
      ⟨⟨winW / 2 - r, y + (vy - g)⟩, ⟨2 * (-0.9), vy - g⟩⟩ := by
    simp only [clampRight]
    rw [if_pos (by show winW / 2 - r < _; linarith)]
  have e7 : clampBottom (winH / 2) r
      (⟨⟨winW / 2 - r, y + (vy - g)⟩, ⟨2 * (-0.9), vy - g⟩⟩ : Particle) =
      ⟨⟨winW / 2 - r, y + (vy - g)⟩, ⟨2 * (-0.9), vy - g⟩⟩ := by
    simp only [clampBottom]
    rw [if_neg (by push_neg; linarith)]
  have e8 : clampTop (winH / 2) r
      (⟨⟨winW / 2 - r, y + (vy - g)⟩, ⟨2 * (-0.9), vy - g⟩⟩ : Particle) =
      ⟨⟨winW / 2 - r, y + (vy - g)⟩, ⟨2 * (-0.9), vy - g⟩⟩ := by
    simp only [clampTop]
    rw [if_neg (by push_neg; linarith)]
  have e9 : frictionStep f 1 stop
      (⟨⟨winW / 2 - r, y + (vy - g)⟩, ⟨2 * (-0.9), vy - g⟩⟩ : Particle) =
      ⟨⟨winW / 2 - r, y + (vy - g)⟩, (1 : ℚ) • ⟨2 * (-0.9), vy - g⟩⟩ := by
    simp only [frictionStep]
    have harg : normSq ((1 : ℚ) • (⟨2 * (-0.9), vy - g⟩ : Vec2)) =
        normSq (⟨-(9/5), vy - g⟩ : Vec2) := by
      unfold normSq
      simp only [Vec2.smul_x, Vec2.smul_y]
      norm_num
    rw [harg, hft]
    rw [if_neg (show ¬ t < stop by
      push_neg
      have h81 : (9/5 : ℚ) ≤ t := by
        by_contra hcon
        push_neg at hcon
        have hlt : t * t < (9/5 : ℚ) * (9/5) := mul_self_lt_mul_self ht0 hcon
        unfold normSq at ht2
        simp only at ht2
        rw [ht2] at hlt
        nlinarith [mul_self_nonneg (vy - g)]
      linarith)]
  have E : integrateParticle f ⟨astr, rstr, maxSpeed, r, g, 1, stop⟩ ms winW
      winH ⟨⟨winW / 2 - r + 1, y⟩, ⟨2, vy⟩⟩ =
      ⟨⟨winW / 2 - r, y + (vy - g)⟩, (1 : ℚ) • ⟨2 * (-0.9), vy - g⟩⟩ := by
    show frictionStep f 1 stop
        (clampTop (winH / 2) r (clampBottom (winH / 2) r
          (clampRight (winW / 2) r (clampLeft (winW / 2) r
            (moveStep (speedLimitStep f maxSpeed (gravityStep g
              (pointerStep f ⟨astr, rstr, maxSpeed, r, g, 1, stop⟩ ms winW
                winH ⟨⟨winW / 2 - r + 1, y⟩, ⟨2, vy⟩⟩)))))))) = _
    rw [e1, e2, e3, e4, e5, e6, e7, e8, e9]
  rw [E]
  constructor
  · rfl
  · show (1 : ℚ) * (2 * (-0.9)) = -(9/5)
    norm_num

/-- Witness for the amended claim C8: window 200×200, radius 8, gravity 0,
`vy = 0`, `maxSpeed = 8`, `stopThreshold = 0.05`, friction 1, with an oracle
that is the exact square root at both queried points (`√4 = 2`,
`√(81/25) = 9/5`). -/
theorem claim_C8_scenario_c_witness :
    IsSqrt (normSq (⟨2, 0 - 0⟩ : Vec2)) 2 ∧
      IsSqrt (normSq (⟨-(9/5), 0 - 0⟩ : Vec2)) (9/5) ∧
      (integrateParticle
          (fun q => if q = 4 then 2 else if q = 81/25 then 9/5 else 0)
          ⟨1/10, 3/20, 8, 8, 0, 1, 1/20⟩ ⟨false, false, ⟨0, 0⟩⟩ 200 200
          ⟨⟨200 / 2 - 8 + 1, 0⟩, ⟨2, 0⟩⟩).position.x = 200 / 2 - 8 ∧
      (integrateParticle
          (fun q => if q = 4 then 2 else if q = 81/25 then 9/5 else 0)
          ⟨1/10, 3/20, 8, 8, 0, 1, 1/20⟩ ⟨false, false, ⟨0, 0⟩⟩ 200 200
          ⟨⟨200 / 2 - 8 + 1, 0⟩, ⟨2, 0⟩⟩).velocity.x = -(9/5) := by
  have h := claim_C8_scenario_c
    (fun q => if q = 4 then 2 else if q = 81/25 then 9/5 else 0) 200 200
    (1/10) (3/20) 8 8 0 (1/20) 0 0 2 (9/5) ⟨false, false, ⟨0, 0⟩⟩
    rfl rfl (by norm_num)
    ⟨by norm_num, by norm_num [normSq]⟩ (by norm_num [normSq]) (by norm_num)
    (by norm_num) (by norm_num)
    ⟨by norm_num, by norm_num [normSq]⟩ (by norm_num [normSq]) (by norm_num)
  exact ⟨⟨by norm_num, by norm_num [normSq]⟩,
    ⟨by norm_num, by norm_num [normSq]⟩, h.1, h.2⟩

/-- Counterexample to claim C8 as stated: with the source's default
parameters (friction `0.98`, here with gravity `0` so that both
queried lengths are rational) the particle does end at
`position.x = halfWidth - radius`, but its `velocity.x` is
`-1.764 = 2 × (-0.9) × 0.98`, not `-1.8`: the friction multiplication runs
after the bounce.  The oracle is the exact square root at both queried
points (`√4 = 2`, `√(194481/62500) = 441/250`). -/
theorem claim_C8_counterexample :
    IsSqrt 4 ((fun q : ℚ => if q = 4 then (2 : ℚ)
        else if q = 194481/62500 then 441/250 else 0) 4) ∧
      IsSqrt (194481/62500) ((fun q : ℚ => if q = 4 then (2 : ℚ)
        else if q = 194481/62500 then 441/250 else 0) (194481/62500)) ∧
      (integrateParticle
          (fun q => if q = 4 then 2 else if q = 194481/62500 then 441/250
            else 0)
          ⟨1/10, 3/20, 8, 8, 0, 49/50, 1/20⟩ ⟨false, false, ⟨0, 0⟩⟩ 200 200
          ⟨⟨200 / 2 - 8 + 1, 0⟩, ⟨2, 0⟩⟩).position.x = 200 / 2 - 8 ∧
      (integrateParticle
          (fun q => if q = 4 then 2 else if q = 194481/62500 then 441/250
            else 0)
          ⟨1/10, 3/20, 8, 8, 0, 49/50, 1/20⟩ ⟨false, false, ⟨0, 0⟩⟩ 200 200
          ⟨⟨200 / 2 - 8 + 1, 0⟩, ⟨2, 0⟩⟩).velocity.x = -(441/250) ∧
      ¬ ((integrateParticle
          (fun q => if q = 4 then 2 else if q = 194481/62500 then 441/250
            else 0)
          ⟨1/10, 3/20, 8, 8, 0, 49/50, 1/20⟩ ⟨false, false, ⟨0, 0⟩⟩ 200 200
          ⟨⟨200 / 2 - 8 + 1, 0⟩, ⟨2, 0⟩⟩).velocity.x = -(9/5)) := by
  refine ⟨⟨by norm_num, by norm_num⟩, ⟨by norm_num, by norm_num⟩, ?_, ?_, ?_⟩
    <;> norm_num [integrateParticle, frictionStep, borderStep, clampTop,
      clampBottom, clampRight, clampLeft, moveStep, speedLimitStep,
      gravityStep, pointerStep, normSq]

theorem countP_ext {α : Type} (p q : α → Bool) :
    ∀ l : List α, (∀ a ∈ l, p a = q a) → l.countP p = l.countP q
  | [], _ => rfl
  | a :: l, h => by
    rw [List.countP_cons, List.countP_cons, h a (List.mem_cons_self a l),
      countP_ext p q l (fun b hb => h b (List.mem_cons_of_mem a hb))]

theorem cnt_cons {P : Type} [DecidableEq P] (a p : P) (l : List P) :
    cnt a (p :: l) = cnt a l + if p = a then 1 else 0 := by
  unfold cnt
  rw [List.countP_cons]
  congr 1
  simp

theorem cnt_eq_zero_of_not_mem {P : Type} [DecidableEq P] {a : P} :
    ∀ {l : List P}, a ∉ l → cnt a l = 0
  | [], _ => rfl
  | p :: l, h => by
    rw [cnt_cons,
      cnt_eq_zero_of_not_mem (fun hm => h (List.mem_cons_of_mem p hm)),
      if_neg (fun he => h (by rw [← he]; exact List.mem_cons_self p l))]

theorem cnt_eq_one_of_nodup {P : Type} [DecidableEq P] {a : P} :
    ∀ {l : List P}, l.Nodup → a ∈ l → cnt a l = 1
  | [], _, hm => absurd hm (List.not_mem_nil a)
  | p :: l, hnd, hm => by
    obtain ⟨hp, hl⟩ := List.nodup_cons.mp hnd
    rcases List.mem_cons.mp hm with he | hm'
    · rw [cnt_cons, cnt_eq_zero_of_not_mem (he ▸ hp), if_pos he.symm]
    · have hpa : p ≠ a := fun he' => hp (he' ▸ hm')
      rw [cnt_cons, cnt_eq_one_of_nodup hl hm', if_neg hpa]

theorem mem_bucket {P : Type} (cell : P → ℤ × ℤ) (ps : List P) (k : ℤ × ℤ)
    (a : P) : a ∈ bucket cell ps k ↔ a ∈ ps ∧ cell a = k := by
  unfold bucket
  simp [List.mem_filter]

theorem bucket_nodup {P : Type} (cell : P → ℤ × ℤ) (ps : List P)
    (k : ℤ × ℤ) (h : ps.Nodup) : (bucket cell ps k).Nodup :=
  h.filter _

theorem cnt_bucket {P : Type} [DecidableEq P] (cell : P → ℤ × ℤ) (a : P)
    (k : ℤ × ℤ) (ps : List P) :
    cnt a (bucket cell ps k) = if cell a = k then cnt a ps else 0 := by
  induction ps with
  | nil => simp [cnt, bucket]
  | cons p ps ih =>
    unfold bucket at ih ⊢
    rw [List.filter_cons]
    by_cases hp : cell p = k
    · rw [if_pos (by simp [hp]), cnt_cons, ih]
      by_cases hpa : p = a
      · subst hpa
        simp [hp, cnt_cons]
      · simp [hpa, cnt_cons]
    · rw [if_neg (by simp [hp]), ih]
      by_cases hpa : p = a
      · subst hpa
        simp [hp, cnt_cons]
      · simp [hpa, cnt_cons]

/-- The same-cell double loop visits the unordered pair `{i, j}` exactly
once when both are in the bucket (and never otherwise), for a
duplicate-free bucket. -/
theorem countP_sameCellPairs {P : Type} [DecidableEq P] {i j : P}
    (hij : i ≠ j) :
    ∀ l : List P, l.Nodup →
      (sameCellPairs l).countP (isPairOf i j) =
        if i ∈ l ∧ j ∈ l then 1 else 0 := by
  intro l
  induction l with
  | nil => simp [sameCellPairs]
  | cons p rest ih =>
    intro hnd
    obtain ⟨hp, hrest⟩ := List.nodup_cons.mp hnd
    rw [show sameCellPairs (p :: rest) =
        rest.map (fun q => (p, q)) ++ sameCellPairs rest from rfl,
      List.countP_append, List.countP_map, ih hrest]
    by_cases hpi : p = i
    · subst hpi
      have h1 : rest.countP (isPairOf p j ∘ fun q => (p, q)) = cnt j rest := by
        apply countP_ext
        intro a _
        simp [isPairOf, Function.comp, hij]
      rw [h1, if_neg (fun hc => hp hc.1)]
      by_cases hjr : j ∈ rest
      · rw [cnt_eq_one_of_nodup hrest hjr,
          if_pos ⟨List.mem_cons_self p rest, List.mem_cons_of_mem p hjr⟩]
      · rw [cnt_eq_zero_of_not_mem hjr,
          if_neg (fun hc =>
            (List.mem_cons.mp hc.2).elim (fun h => hij h.symm) hjr)]
    · by_cases hpj : p = j
      · subst hpj
        have h1 : rest.countP (isPairOf i p ∘ fun q => (p, q)) =
            cnt i rest := by
          apply countP_ext
          intro a _
          simp [isPairOf, Function.comp, Ne.symm hij]
        rw [h1, if_neg (fun hc => hp hc.2)]
        by_cases hir : i ∈ rest
        · rw [cnt_eq_one_of_nodup hrest hir,
            if_pos ⟨List.mem_cons_of_mem p hir, List.mem_cons_self p rest⟩]
        · rw [cnt_eq_zero_of_not_mem hir,
            if_neg (fun hc =>
              (List.mem_cons.mp hc.1).elim (fun h => hij h) hir)]
      · have h1 : rest.countP (isPairOf i j ∘ fun q => (p, q)) = 0 := by
          rw [countP_ext _ (fun _ => false) _
            (by intro a _; simp [isPairOf, Function.comp, hpi, hpj])]
          simp
        have e1 : i ≠ p := fun h => hpi h.symm
        have e2 : j ≠ p := fun h => hpj h.symm
        rw [h1]
        simp only [List.mem_cons, e1, e2, false_or, Nat.zero_add]

/-- The cross-bucket double loop visits `{i, j}` once for each way of
placing `i` in the first and `j` in the second bucket or vice versa. -/
theorem countP_pairsOf {P : Type} [DecidableEq P] {i j : P} (hij : i ≠ j)
    (l2 : List P) : ∀ l1 : List P,
      (pairsOf l1 l2).countP (isPairOf i j) =
        cnt i l1 * cnt j l2 + cnt j l1 * cnt i l2
  | [] => by simp [pairsOf, cnt]
  | p :: l1 => by
    rw [show pairsOf (p :: l1) l2 =
        l2.map (fun p2 => (p, p2)) ++ pairsOf l1 l2 from rfl,
      List.countP_append, List.countP_map, countP_pairsOf hij l2 l1,
      cnt_cons, cnt_cons]
    by_cases hpi : p = i
    · subst hpi
      have h1 : l2.countP (isPairOf p j ∘ fun q => (p, q)) = cnt j l2 := by
        apply countP_ext
        intro a _
        simp [isPairOf, Function.comp, hij]
      rw [h1, if_pos rfl, if_neg hij]
      ring
    · by_cases hpj : p = j
      · subst hpj
        have h1 : l2.countP (isPairOf i p ∘ fun q => (p, q)) =
            cnt i l2 := by
          apply countP_ext
          intro a _
          simp [isPairOf, Function.comp, Ne.symm hij]
        rw [h1, if_neg hpi, if_pos rfl]
        ring
      · have h1 : l2.countP (isPairOf i j ∘ fun q => (p, q)) = 0 := by
          rw [countP_ext _ (fun _ => false) _
            (by intro a _; simp [isPairOf, Function.comp, hpi, hpj])]
          simp
        rw [h1, if_neg hpi, if_neg hpj]
        ring

/-- Cross-bucket visitation count in terms of cell-membership
indicators, for a duplicate-free particle list containing `i` and `j`. -/
theorem countP_pairsOf_bucket {P : Type} [DecidableEq P] {i j : P}
    (hij : i ≠ j) (cell : P → ℤ × ℤ) (ps : List P) (hnd : ps.Nodup)
    (hi : i ∈ ps) (hj : j ∈ ps) (k k' : ℤ × ℤ) :
    (pairsOf (bucket cell ps k) (bucket cell ps k')).countP (isPairOf i j) =
      (if cell i = k then 1 else 0) * (if cell j = k' then 1 else 0) +
        (if cell j = k then 1 else 0) * (if cell i = k' then 1 else 0) := by
  rw [countP_pairsOf hij, cnt_bucket, cnt_bucket, cnt_bucket, cnt_bucket,
    cnt_eq_one_of_nodup hnd hi, cnt_eq_one_of_nodup hnd hj]

/-- The four forward-offset scans issued from cell `k`, unrolled. -/
theorem crossPairs_eq {P : Type} (cell : P → ℤ × ℤ) (ps : List P)
    (k : ℤ × ℤ) :
    crossPairs cell ps k =
      pairsOf (bucket cell ps k) (bucket cell ps (k.1 + 0, k.2 + 1)) ++
        (pairsOf (bucket cell ps k) (bucket cell ps (k.1 + 1, k.2 + -1)) ++
          (pairsOf (bucket cell ps k) (bucket cell ps (k.1 + 1, k.2 + 0)) ++
            (pairsOf (bucket cell ps k)
              (bucket cell ps (k.1 + 1, k.2 + 1)) ++ []))) := rfl

/-- Number of narrow-phase visits of `{i, j}` issued from one grid cell `k`
(same-cell pass plus the four forward neighbor scans), as cell-membership
indicators. -/
theorem countP_block {P : Type} [DecidableEq P] {i j : P} (hij : i ≠ j)
    (cell : P → ℤ × ℤ) (ps : List P) (hnd : ps.Nodup) (hi : i ∈ ps)
    (hj : j ∈ ps) (k : ℤ × ℤ) :
    ((sameCellPairs (bucket cell ps k) ++ crossPairs cell ps k).countP
        (isPairOf i j)) =
      (if cell i = k ∧ cell j = k then 1 else 0) +
        (((if cell i = k then 1 else 0) *
            (if cell j = (k.1 + 0, k.2 + 1) then 1 else 0) +
          (if cell j = k then 1 else 0) *
            (if cell i = (k.1 + 0, k.2 + 1) then 1 else 0)) +
         ((if cell i = k then 1 else 0) *
            (if cell j = (k.1 + 1, k.2 + -1) then 1 else 0) +
          (if cell j = k then 1 else 0) *
            (if cell i = (k.1 + 1, k.2 + -1) then 1 else 0)) +
         ((if cell i = k then 1 else 0) *
            (if cell j = (k.1 + 1, k.2 + 0) then 1 else 0) +
          (if cell j = k then 1 else 0) *
            (if cell i = (k.1 + 1, k.2 + 0) then 1 else 0)) +
         ((if cell i = k then 1 else 0) *
            (if cell j = (k.1 + 1, k.2 + 1) then 1 else 0) +
          (if cell j = k then 1 else 0) *
            (if cell i = (k.1 + 1, k.2 + 1) then 1 else 0))) := by
  rw [List.countP_append, crossPairs_eq, List.countP_append,
    List.countP_append, List.countP_append, List.countP_append,
    List.countP_nil,
    countP_sameCellPairs hij _ (bucket_nodup cell ps k hnd),
    countP_pairsOf_bucket hij cell ps hnd hi hj k (k.1 + 0, k.2 + 1),
    countP_pairsOf_bucket hij cell ps hnd hi hj k (k.1 + 1, k.2 + -1),
    countP_pairsOf_bucket hij cell ps hnd hi hj k (k.1 + 1, k.2 + 0),
    countP_pairsOf_bucket hij cell ps hnd hi hj k (k.1 + 1, k.2 + 1)]
  simp only [mem_bucket, hi, hj, true_and]
  ring

/-- Summing a function over a duplicate-free list which vanishes everywhere
but at one member. -/
theorem sum_map_eq_single {α : Type} (g : α → ℕ) :
    ∀ l : List α, ∀ c, l.Nodup → c ∈ l → (∀ k ∈ l, k ≠ c → g k = 0) →
      (l.map g).sum = g c
  | [], c, _, hc, _ => absurd hc (List.not_mem_nil c)
  | x :: rest, c, hnd, hc, hz => by
    obtain ⟨hx, hrest⟩ := List.nodup_cons.mp hnd
    rw [List.map_cons, List.sum_cons]
    rcases List.mem_cons.mp hc with he | hm
    · subst he
      have hrz : (rest.map g).sum = 0 := by
        apply List.sum_eq_zero
        intro v hv
        obtain ⟨k, hk, rfl⟩ := List.mem_map.mp hv
        exact hz k (List.mem_cons_of_mem _ hk) (fun h => hx (h ▸ hk))
      rw [hrz]
      exact Nat.add_zero _
    · have hxc : x ≠ c := fun h => hx (h ▸ hm)
      rw [hz x (List.mem_cons_self x rest) hxc,
        sum_map_eq_single g rest c hrest hm
          (fun k hk hkc => hz k (List.mem_cons_of_mem x hk) hkc)]
      exact Nat.zero_add _

/-- Summing a function over a duplicate-free list which vanishes everywhere
but at two distinct members. -/
theorem sum_map_eq_two {α : Type} (g : α → ℕ) :
    ∀ l : List α, ∀ a b, a ≠ b → l.Nodup → a ∈ l → b ∈ l →
      (∀ k ∈ l, k ≠ a → k ≠ b → g k = 0) → (l.map g).sum = g a + g b
  | [], a, _, _, _, ha, _, _ => absurd ha (List.not_mem_nil a)
  | x :: rest, a, b, hab, hnd, ha, hb, hz => by
    obtain ⟨hx, hrest⟩ := List.nodup_cons.mp hnd
    rw [List.map_cons, List.sum_cons]
    rcases List.mem_cons.mp ha with hea | hma
    · subst hea
      have hbr : b ∈ rest := by
        rcases List.mem_cons.mp hb with heb | hmb
        · exact absurd heb.symm hab
        · exact hmb
      rw [sum_map_eq_single g rest b hrest hbr
        (fun k hk hkb =>
          hz k (List.mem_cons_of_mem a hk) (fun h => hx (h ▸ hk)) hkb)]
    · rcases List.mem_cons.mp hb with heb | hmb
      · subst heb
        rw [sum_map_eq_single g rest a hrest hma
          (fun k hk hka =>
            hz k (List.mem_cons_of_mem b hk) hka (fun h => hx (h ▸ hk)))]
        exact Nat.add_comm _ _
      · have hxa : x ≠ a := fun h => hx (h ▸ hma)
        have hxb : x ≠ b := fun h => hx (h ▸ hmb)
        rw [hz x (List.mem_cons_self x rest) hxa hxb,
          sum_map_eq_two g rest a b hab hrest hma hmb
            (fun k hk h1 h2 => hz k (List.mem_cons_of_mem x hk) h1 h2),
          Nat.zero_add]

/-- Claim C4: in the narrow phase, every unordered pair of distinct
particles whose grid cells are identical or within Chebyshev distance 1 is
passed to `resolveCollision` exactly once per frame, via the same-cell pass
plus the forward neighbor offsets; generic in the cell assignment
(instantiated by `updateParticles` with `cellOf`). -/
theorem claim_C4_exactly_once {P : Type} [DecidableEq P]
    (cell : P → ℤ × ℤ) (ps : List P) (i j : P)
    (hnd : ps.Nodup) (hi : i ∈ ps) (hj : j ∈ ps) (hij : i ≠ j)
    (hx : |(cell i).1 - (cell j).1| ≤ 1)
    (hy : |(cell i).2 - (cell j).2| ≤ 1) :
    pairCount cell ps i j = 1 := by
  unfold pairCount invocations
  rw [List.countP_flatMap]
  have hkeys_nodup : (gridKeys cell ps).Nodup := List.nodup_dedup _
  have hci : cell i ∈ gridKeys cell ps :=
    List.mem_dedup.mpr (List.mem_map_of_mem cell hi)
  have hcj : cell j ∈ gridKeys cell ps :=
    List.mem_dedup.mpr (List.mem_map_of_mem cell hj)
  rw [abs_le] at hx hy
  by_cases hcc : cell i = cell j
  · have hz : ∀ k ∈ gridKeys cell ps, k ≠ cell i →
        (List.countP (isPairOf i j) ∘ fun k =>
          sameCellPairs (bucket cell ps k) ++ crossPairs cell ps k) k = 0 := by
      intro k _ hkne
      simp only [Function.comp_apply]
      rw [countP_block hij cell ps hnd hi hj k]
      have h1 : ¬ cell i = k := fun h => hkne h.symm
      have h2 : ¬ cell j = k := fun h => hkne (hcc.trans h).symm
      simp [h1, h2]
    rw [sum_map_eq_single _ (gridKeys cell ps) (cell i) hkeys_nodup hci hz]
    simp only [Function.comp_apply]
    rw [countP_block hij cell ps hnd hi hj (cell i)]
    simp [hcc, Prod.ext_iff]
  · have hz : ∀ k ∈ gridKeys cell ps, k ≠ cell i → k ≠ cell j →
        (List.countP (isPairOf i j) ∘ fun k =>
          sameCellPairs (bucket cell ps k) ++ crossPairs cell ps k) k = 0 := by
      intro k _ hki hkj
      simp only [Function.comp_apply]
      rw [countP_block hij cell ps hnd hi hj k]
      have h1 : ¬ cell i = k := fun h => hki h.symm
      have h2 : ¬ cell j = k := fun h => hkj h.symm
      simp [h1, h2]
    rw [sum_map_eq_two _ (gridKeys cell ps) (cell i) (cell j) hcc
      hkeys_nodup hci hcj hz]
    simp only [Function.comp_apply]
    rw [countP_block hij cell ps hnd hi hj (cell i),
      countP_block hij cell ps hnd hi hj (cell j)]
    have h1 : ¬ cell j = cell i := fun h => hcc h.symm
    have hne : ¬ ((cell j).1 = (cell i).1 ∧ (cell j).2 = (cell i).2) :=
      fun h => h1 (Prod.ext_iff.mpr h)
    simp only [hcc, h1, if_true, if_false, eq_self_iff_true, if_pos,
      and_true, true_and, and_false, false_and, if_neg, not_false_iff,
      one_mul, zero_mul, mul_one, mul_zero, Nat.add_zero, Nat.zero_add,
      Prod.ext_iff]
    split_ifs <;> omega

/-- Witness for claim C4: particles `0, 1` (as indices) in horizontally
adjacent cells `(0,0)` and `(1,0)`; the narrow phase visits the pair exactly
once. -/
theorem claim_C4_exactly_once_witness :
    ([0, 1] : List ℕ).Nodup ∧ (0 : ℕ) ∈ [0, 1] ∧ (1 : ℕ) ∈ [0, 1] ∧
      (0 : ℕ) ≠ 1 ∧
      |((fun n : ℕ => ((n : ℤ), (0 : ℤ))) 0).1 -
        ((fun n : ℕ => ((n : ℤ), (0 : ℤ))) 1).1| ≤ 1 ∧
      |((fun n : ℕ => ((n : ℤ), (0 : ℤ))) 0).2 -
        ((fun n : ℕ => ((n : ℤ), (0 : ℤ))) 1).2| ≤ 1 ∧
      pairCount (fun n : ℕ => ((n : ℤ), (0 : ℤ))) [0, 1] 0 1 = 1 :=
  ⟨by decide, by decide, by decide, by decide, by decide, by decide,
    claim_C4_exactly_once (fun n : ℕ => ((n : ℤ), (0 : ℤ))) [0, 1] 0 1
      (by decide) (by decide) (by decide) (by decide) (by decide)
      (by decide)⟩

end ParticleSim
